import Mathlib

/-!
Verification of the time-tracker-integration repository.

Shallow embedding conventions:
* `datetime` values are modelled as `Int` timestamps in seconds; a
  `timedelta` of h hours is `h * 3600` seconds, of m minutes `m * 60`.
* Python float comparisons such as `(gap.total_seconds() / 60) <= threshold`
  are modelled by the exact integer inequality `gapSeconds ≤ threshold * 60`,
  which is the same predicate over exact arithmetic.
* Python `//` and `%` (floor division / mod) are Lean `Int` `/` and `%`
  (Euclidean, identical to floor for the positive divisors used here);
  Python `int(x / 60)` truncates toward zero, which agrees with `/` on the
  non-negative numerators produced by the code.
* Python dicts are association lists with insertion-order iteration
  (`dictGet` / `dictSet` below), matching dict key update semantics.
* Code that raises is modelled with `Except String`; the error string names
  the Python exception.
-/

/-- A metric value stored in `Session.metrics`: the code distinguishes
numeric values (`isinstance(value, (int, float))`) from the rest, which we
represent by strings. -/
inductive MVal where
  | num (n : Int)
  | str (s : String)
deriving DecidableEq, Repr

abbrev Metrics := List (String × MVal)

/-- `d.get(k)` / `d[k]` lookup for the association-list model of a dict. -/
def dictGet (d : Metrics) (k : String) : Option MVal :=
  match d with
  | [] => none
  | (k', v) :: rest => if k' = k then some v else dictGet rest k

/-- `d[k] = v` update for the association-list model of a dict. -/
def dictSet (d : Metrics) (k : String) (v : MVal) : Metrics :=
  match d with
  | [] => [(k, v)]
  | (k', v') :: rest => if k' = k then (k, v) :: rest else (k', v') :: dictSet rest k v

/-- `src/base_extractor.py`, class `Session`: start, end, service, project,
metrics.  (`end` is a Lean keyword, hence the field name `end_`.) -/
structure Session where
  start : Int
  end_ : Int
  service : String
  project : Option String
  metrics : Metrics
deriving DecidableEq, Repr

/-- Stable insertion of `x` into `l`: `x` goes before the first element with a
key not below `key x`.  Together with `sortByKey` this is a stable sort, the
observable behaviour of Python's `sorted(..., key=...)`. -/
def insertByKey {α : Type} (key : α → Int) (x : α) : List α → List α
  | [] => [x]
  | y :: ys => if key x ≤ key y then x :: y :: ys else y :: insertByKey key x ys

/-- Stable sort by an integer key, modelling Python `sorted(l, key=...)`. -/
def sortByKey {α : Type} (key : α → Int) : List α → List α
  | [] => []
  | x :: xs => insertByKey key x (sortByKey key xs)

/-- `src/base_extractor.py` line 75: the merge condition
`time_gap <= threshold_minutes and session.project == current.project`
with `time_gap = (session.start - current.end).total_seconds() / 60`. -/
def mergeCond (t : Int) (current s : Session) : Bool :=
  decide (s.start - current.end_ ≤ t * 60) && decide (s.project = current.project)

/-- `src/base_extractor.py` lines 79-81: for each key of the absorbed
session's metrics, if the value is numeric, do
`current.metrics[key] = current.metrics.get(key, 0) + value`; non-numeric
values are skipped.  If the current value at that key is non-numeric,
Python's `+` raises `TypeError`. -/
def addMetric (acc : Metrics) (kv : String × MVal) : Except String Metrics :=
  match kv.2 with
  | .str _ => .ok acc
  | .num n =>
    match dictGet acc kv.1 with
    | some (.str _) => .error "TypeError"
    | some (.num m) => .ok (dictSet acc kv.1 (.num (m + n)))
    | none => .ok (dictSet acc kv.1 (.num (0 + n)))

/-- The whole metrics-merging loop of `merge_consecutive_sessions`,
iterating over the absorbed session's metrics in insertion order. -/
def mergeMetricsE : Metrics → Metrics → Except String Metrics
  | cur, [] => .ok cur
  | cur, kv :: rest =>
    match addMetric cur kv with
    | .error e => .error e
    | .ok acc => mergeMetricsE acc rest

/-- `src/base_extractor.py` lines 72-86: the accumulator loop of
`merge_consecutive_sessions`.  On a merge the accumulator keeps its start,
service and project, takes `end := session.end` (the code assigns
`current.end = session.end`, it does not take a max), and merges metrics. -/
def mergeLoop (t : Int) : Session → List Session → Except String (List Session)
  | current, [] => .ok [current]
  | current, s :: rest =>
    if mergeCond t current s then
      match mergeMetricsE current.metrics s.metrics with
      | .error e => .error e
      | .ok m => mergeLoop t ⟨current.start, s.end_, current.service, current.project, m⟩ rest
    else
      match mergeLoop t s rest with
      | .error e => .error e
      | .ok out => .ok (current :: out)

/-- `src/base_extractor.py` lines 62-87, `merge_consecutive_sessions`:
empty input gives `[]`; otherwise sort by start (Python's stable sort) and
run the accumulator loop. -/
def merge_consecutive_sessions (t : Int) (sessions : List Session) :
    Except String (List Session) :=
  match sortByKey (fun s => s.start) sessions with
  | [] => .ok []
  | c :: rest => mergeLoop t c rest

-- Sanity checks of the embedding on concrete inputs.
example : merge_consecutive_sessions 10
    [⟨0, 300, "Claude", none, []⟩, ⟨600, 900, "Claude", none, []⟩]
    = .ok [⟨0, 900, "Claude", none, []⟩] := rfl
example : merge_consecutive_sessions 10
    [⟨0, 300, "Claude", none, []⟩, ⟨1000, 1200, "Claude", none, []⟩]
    = .ok [⟨0, 300, "Claude", none, []⟩, ⟨1000, 1200, "Claude", none, []⟩] := rfl
example : merge_consecutive_sessions 10
    [⟨0, 300, "Claude", some "a", []⟩, ⟨400, 1200, "Claude", some "b", []⟩]
    = .ok [⟨0, 300, "Claude", some "a", []⟩, ⟨400, 1200, "Claude", some "b", []⟩] := rfl

/-- A row of the commit DataFrame built by `GitAnalyzer.get_all_commits`
(`src/git_analyzer.py`): only the columns used by
`find_repository_for_session` are kept. -/
structure Commit where
  repo : String
  timestamp : Int
deriving DecidableEq, Repr

/-- The `config['analysis']` window settings used in
`find_repository_for_session`. -/
structure AnalysisConfig where
  hoursBefore : Int
  hoursAfter : Int
deriving DecidableEq, Repr

/-- The window mask of `src/git_analyzer.py` lines 50-51:
`(timestamp >= window_start) & (timestamp <= window_end)`. -/
def inWindow (cfg : AnalysisConfig) (sessionTime : Int) (c : Commit) : Bool :=
  decide (sessionTime - cfg.hoursBefore * 3600 ≤ c.timestamp) &&
  decide (c.timestamp ≤ sessionTime + cfg.hoursAfter * 3600)

/-- Number of occurrences of `x` in `l` (one cell of
`relevant_commits['repo'].value_counts()`). -/
def countOcc (l : List String) (x : String) : Nat :=
  (l.filter (fun y => decide (y = x))).length

/-- The distinct values of `l` in first-occurrence order (the index of a
pandas hash table before sorting by count). -/
def dedupFirst : List String → List String
  | [] => []
  | x :: xs => x :: (dedupFirst xs).filter (fun y => decide (¬ y = x))

/-- One step of scanning the distinct values for the one with the highest
count; an earlier value is kept on ties. -/
def argmaxStep (l : List String) (best : Option String) (x : String) : Option String :=
  match best with
  | none => some x
  | some b => if countOcc l b < countOcc l x then some x else some b

/-- `relevant_commits['repo'].value_counts().index[0]`: a value of maximal
count.  pandas sorts the counts descending; this model resolves ties by
first occurrence, one deterministic realisation of that sort. -/
def argmaxCount (l : List String) : Option String :=
  (dedupFirst l).foldl (argmaxStep l) none

/-- `src/git_analyzer.py` lines 40-59, `find_repository_for_session`.
`commits_df` is the DataFrame built by `pd.DataFrame(all_commits)`; when
`all_commits` is empty that DataFrame has no columns at all, so the column
access `commits_df['timestamp']` on line 50 raises `KeyError`. -/
def find_repository_for_session (cfg : AnalysisConfig) (sessionTime : Int)
    (commitsDf : List Commit) : Except String (Option String × Nat) :=
  if commitsDf.isEmpty then .error "KeyError: timestamp"
  else if 0 < (commitsDf.filter (inWindow cfg sessionTime)).length then
    .ok (argmaxCount ((commitsDf.filter (inWindow cfg sessionTime)).map (fun c => c.repo)),
      (commitsDf.filter (inWindow cfg sessionTime)).length)
  else
    .ok (none, 0)

example : find_repository_for_session ⟨1, 1⟩ 0 [⟨"X", 300⟩] = .ok (some "X", 1) := rfl
example : find_repository_for_session ⟨1, 1⟩ 0 [⟨"X", 4000⟩] = .ok (none, 0) := rfl
example : find_repository_for_session ⟨1, 1⟩ 0 [] = .error "KeyError: timestamp" := rfl

/-- `src/base_extractor.py` lines 52-60, `filter_sessions`: keep sessions
with `start_date <= s.start` and then `s.start <= end_date`, each filter
applied only when the bound is supplied.  The session's `end` is never
read. -/
def filter_sessions (sessions : List Session) (startDate endDate : Option Int) :
    List Session :=
  let afterStart :=
    match startDate with
    | some d => sessions.filter (fun s => decide (d ≤ s.start))
    | none => sessions
  match endDate with
  | some d => afterStart.filter (fun s => decide (s.start ≤ d))
  | none => afterStart

/-- The `config['repositories']` section read by `get_all_commits`. -/
structure GitConfig where
  githubRepos : List String
  localRepos : List (String × String)

/-- `src/git_analyzer.py` lines 17-38, `get_all_commits`.  The state is the
`commits_cache` attribute; the function returns the DataFrame and the new
cache.  `_fetch_github_commits` and `_fetch_local_commits` shell out to
`gh`/`git`, so they are parameters of the embedding: `fetchGithub repo` and
`fetchLocal name path` give the commits each subprocess call yields for the
supplied date bounds. -/
def get_all_commits (cfg : GitConfig)
    (fetchGithub : String → Option Int → Option Int → List Commit)
    (fetchLocal : String → String → Option Int → Option Int → List Commit)
    (commitsCache : Option (List Commit))
    (startDate endDate : Option Int) : List Commit × Option (List Commit) :=
  match commitsCache with
  | some cache => (cache, some cache)
  | none =>
    let github := (cfg.githubRepos.map (fun r => fetchGithub r startDate endDate)).flatten
    let locals := (cfg.localRepos.map (fun p => fetchLocal p.1 p.2 startDate endDate)).flatten
    let allCommits := github ++ locals
    (allCommits, some allCommits)

/-- One record produced by `ClaudeExtractor._parse_jsonl_file`
(`src/claude_extractor.py` lines 115-122); fields not needed by any claim
are omitted. -/
structure Entry where
  timestamp : Int
  project : String
  inputTokens : Int
  outputTokens : Int
deriving DecidableEq, Repr

/-- The possible outcomes of processing one line of a JSONL file in
`_parse_jsonl_file`; the constructors stand for the results of the
uninterpreted `json.loads` / `datetime.fromisoformat` calls:
`blank` (empty after `strip`), `invalidJson` (`json.loads` raises
`JSONDecodeError`), `noTimestamp` (valid JSON without a `'timestamp'` key),
`badTimestamp` (a `'timestamp'` value `fromisoformat` cannot parse, raising
`ValueError`), and `valid e` (a fully parsed record). -/
inductive JsonlLine where
  | blank
  | invalidJson
  | noTimestamp
  | badTimestamp
  | valid (e : Entry)
deriving DecidableEq, Repr

/-- `src/claude_extractor.py` lines 86-128, `_parse_jsonl_file`.  Blank
lines are skipped; `json.JSONDecodeError` is caught by the inner
`try/except` and the loop continues; a line without `'timestamp'` adds
nothing; a `ValueError` from `fromisoformat` is NOT caught by the inner
handler, escapes to the outer `except Exception`, and the function returns
the entries collected so far — the rest of the file is not processed. -/
def parse_jsonl_file : List JsonlLine → List Entry
  | [] => []
  | .blank :: rest => parse_jsonl_file rest
  | .invalidJson :: rest => parse_jsonl_file rest
  | .noTimestamp :: rest => parse_jsonl_file rest
  | .badTimestamp :: _ => []
  | .valid e :: rest => e :: parse_jsonl_file rest

example : parse_jsonl_file [.invalidJson, .valid ⟨5, "p", 0, 0⟩] = [⟨5, "p", 0, 0⟩] := rfl
example : parse_jsonl_file [.valid ⟨5, "p", 0, 0⟩, .badTimestamp, .valid ⟨9, "p", 0, 0⟩]
    = [⟨5, "p", 0, 0⟩] := rfl

/-- `(total_minutes // 60, total_minutes % 60)` pretty-printing shared by
`calculate_session_duration` and the merge loop of
`find_claude_sessions_enhanced.py` (lines 135-142 and 327-333). -/
def formatDuration (totalMinutes : Int) : String :=
  let hours := totalMinutes / 60
  let minutes := totalMinutes % 60
  if hours > 0 then
    (if minutes > 0 then s!"{hours}h {minutes}m" else s!"{hours}h")
  else s!"{minutes}m"

/-- One element of `all_sessions` in `find_claude_sessions_enhanced`
(`find_claude_sessions_enhanced.py` lines 302-305): a session dict whose
`duration` sub-dict carries `first_interaction`, `last_interaction`,
`duration_minutes` and `formatted`.  ISO timestamps are modelled as `Int`
seconds (their lexicographic order for a uniform format is their
chronological order). -/
structure ESession where
  firstInteraction : Int
  lastInteraction : Int
  interactionCount : Int
  durationMinutes : Int
  formatted : String
deriving DecidableEq, Repr

/-- `current_merged`: the running copy of a session dict, plus the
`'sessions'` list of absorbed originals. -/
structure MergedESession where
  firstInteraction : Int
  lastInteraction : Int
  interactionCount : Int
  durationMinutes : Int
  formatted : String
  sessions : List ESession
deriving DecidableEq, Repr

/-- `session.copy()` with `current_merged['sessions'] = [session]`
(`find_claude_sessions_enhanced.py` lines 312-313). -/
def initMerged (s : ESession) : MergedESession :=
  ⟨s.firstInteraction, s.lastInteraction, s.interactionCount, s.durationMinutes,
    s.formatted, [s]⟩

/-- `find_claude_sessions_enhanced.py` lines 310-341: the merge loop.  The
condition on line 319 is STRICT: `(session_start - current_end).total_seconds()
< 900`.  On a merge, counts and duration minutes are summed, the end becomes
the absorbed session's `last_interaction`, and `formatted` is recomputed. -/
def mergeEnhancedLoop : MergedESession → List ESession → List MergedESession
  | cur, [] => [cur]
  | cur, s :: rest =>
    if s.firstInteraction - cur.lastInteraction < 900 then
      let dm := cur.durationMinutes + s.durationMinutes
      mergeEnhancedLoop
        ⟨cur.firstInteraction, s.lastInteraction,
          cur.interactionCount + s.interactionCount, dm, formatDuration dm,
          cur.sessions ++ [s]⟩ rest
    else cur :: mergeEnhancedLoop (initMerged s) rest

/-- `find_claude_sessions_enhanced.py` lines 305-341: sort `all_sessions`
by `first_interaction` and run the merge loop (the first iteration with
`current_merged = None` just installs the first session). -/
def mergeAdjacentSessions (sessions : List ESession) : List MergedESession :=
  match sortByKey (fun s => s.firstInteraction) sessions with
  | [] => []
  | s :: rest => mergeEnhancedLoop (initMerged s) rest

example : (mergeAdjacentSessions [⟨0, 0, 1, 5, "5m"⟩, ⟨899, 899, 1, 5, "5m"⟩]).length = 1 := rfl
example : (mergeAdjacentSessions [⟨0, 0, 1, 5, "5m"⟩, ⟨900, 900, 1, 5, "5m"⟩]).length = 2 := rfl

/-- `dict.get('activity_count', 1)` on the metrics of a cursor session
(`src/cursor_realtime_extractor.py` line 234); the constructed sessions
always store a numeric count. -/
def cursorActivityCount (m : Metrics) : Int :=
  match dictGet m "activity_count" with
  | some (.num n) => n
  | _ => 1

/-- `src/cursor_realtime_extractor.py` lines 218-240: merge OVERLAPPING
sessions of the SAME project; here the end does take
`max(last_session.end, current_session.end)`. -/
def cursorMergeLoop : Session → List Session → List Session
  | last, [] => [last]
  | last, c :: rest =>
    if decide (c.start ≤ last.end_) && decide (c.project = last.project) then
      cursorMergeLoop
        ⟨last.start, max last.end_ c.end_, "Cursor", last.project,
          [("activity_count", MVal.num (cursorActivityCount last.metrics + 1))]⟩ rest
    else last :: cursorMergeLoop c rest

/-- `src/cursor_realtime_extractor.py` lines 190-246, `_group_into_sessions`:
each activity `(mtime, project)` becomes a session `[mtime - 1h, mtime]`
(`session_duration = timedelta(hours=1)`); the list is sorted by start and,
when it has more than one element, overlapping same-project sessions are
merged.  (`project if project != 'Unknown' else 'Unknown'` is the
identity.) -/
def groupIntoSessions (activities : List (Int × String)) : List Session :=
  match activities with
  | [] => []
  | _ :: _ =>
    let sessions := activities.map (fun a =>
      Session.mk (a.1 - 3600) a.1 "Cursor" (some a.2) [("activity_count", MVal.num 1)])
    let sorted := sortByKey (fun s => s.start) sessions
    if sorted.length > 1 then
      match sorted with
      | [] => []  -- unreachable: length > 1
      | c :: rest => cursorMergeLoop c rest
    else sorted

example : groupIntoSessions [(0, "A"), (2400, "B")] =
    [⟨-3600, 0, "Cursor", some "A", [("activity_count", MVal.num 1)]⟩,
     ⟨-1200, 2400, "Cursor", some "B", [("activity_count", MVal.num 1)]⟩] := rfl
example : groupIntoSessions [(0, "A"), (2400, "A")] =
    [⟨-3600, 2400, "Cursor", some "A", [("activity_count", MVal.num 2)]⟩] := rfl

/-- `find_claude_sessions_enhanced.py` lines 77-101: the gap-splitting loop
of `calculate_session_duration`.  `lastTs` is `current_block[-1][0]` (the
block is never empty when consulted), `curRev` the current block in reverse,
`rest` the remaining sorted interactions.  A gap strictly greater than
`maxGap` closes the block. -/
def gapSplit (maxGap : Int) : Int → List Int → List Int → List (List Int)
  | _, curRev, [] => [curRev.reverse]
  | lastTs, curRev, ts :: rest =>
    if maxGap < ts - lastTs then curRev.reverse :: gapSplit maxGap ts [ts] rest
    else gapSplit maxGap ts (ts :: curRev) rest

/-- `calculate_session_duration` lines 67-105: sort the interactions by
timestamp and split on gaps (an interaction is modelled by its parsed
timestamp; the code sorts by the ISO timestamp string, which for the
uniform format at hand orders exactly like the parsed value). -/
def workBlocks (maxGap : Int) (interactions : List Int) : List (List Int) :=
  match sortByKey (fun x => x) interactions with
  | [] => []
  | t :: rest => gapSplit maxGap t [t] rest

/-- Python `min(block_timestamps)`. -/
def listMin : List Int → Int
  | [] => 0
  | x :: xs => xs.foldl min x

/-- Python `max(block_timestamps)`. -/
def listMax : List Int → Int
  | [] => 0
  | x :: xs => xs.foldl max x

/-- One entry of `block_details` (`find_claude_sessions_enhanced.py` lines
111-133): `start`/`end` are the min/max timestamps of the block;
`duration_minutes` is 5 minutes for a single interaction, else the span plus
a 3-minute buffer, in whole minutes (`int(total_seconds / 60)`, which equals
`/ 60` here because the numerator is non-negative). -/
structure BlockDetail where
  start : Int
  end_ : Int
  durationMinutes : Int
  interactionCount : Nat
deriving DecidableEq, Repr

def blockDetail (block : List Int) : BlockDetail :=
  let first := listMin block
  let last := listMax block
  let durationSeconds : Int := if block.length = 1 then 300 else (last - first) + 180
  ⟨first, last, durationSeconds / 60, block.length⟩

/-- The `block_details` list built by `calculate_session_duration`
(lines 107-133); blocks are non-empty by construction, so the
`if not block: continue` guard never fires. -/
def calculate_session_duration_blocks (maxGap : Int) (interactions : List Int) :
    List BlockDetail :=
  (workBlocks maxGap interactions).map blockDetail

example : calculate_session_duration_blocks 900 [0] = [⟨0, 0, 5, 1⟩] := rfl
example : calculate_session_duration_blocks 900 [0, 60, 2000] =
    [⟨0, 60, 4, 2⟩, ⟨2000, 2000, 5, 1⟩] := rfl

/-- One commit dict as built by `GitExtractor._fetch_github_commits` /
`_fetch_local_commits` (`src/git_extractor.py`). -/
structure GCommit where
  sha : String
  timestamp : Int
  message : String
  author : String
deriving DecidableEq, Repr

/-- Python `s.split(c)` for a one-character separator, over the character
list of the string. -/
def splitOnChar (c : Char) : List Char → List (List Char)
  | [] => [[]]
  | x :: xs =>
    let rest := splitOnChar c xs
    if x = c then [] :: rest
    else
      match rest with
      | [] => [[x]]  -- unreachable: splitOnChar never returns []
      | r :: rs => (x :: r) :: rs

/-- `repo.split('/')[-1] if '/' in repo else repo`
(`src/git_extractor.py` line 155): `'/' in repo` holds exactly when the
split has more than one part. -/
def repoShortName (repo : String) : String :=
  let parts := splitOnChar '/' repo.data
  if parts.length > 1 then String.mk (parts.getLast?.getD repo.data) else repo

/-- `src/git_extractor.py` lines 140-168, `_commits_to_sessions`: each
commit becomes a point session `[timestamp, timestamp + commit_duration]`
where `commit_duration = config['services']['git'].get('commit_duration_minutes', 1)`
minutes. -/
def commits_to_sessions (commitDurationMinutes : Int) (commits : List GCommit)
    (repo : String) : List Session :=
  commits.map (fun c =>
    Session.mk c.timestamp (c.timestamp + commitDurationMinutes * 60) "Git"
      (some (repoShortName repo))
      [("interactions", MVal.num 1), ("commit_sha", MVal.str c.sha),
       ("commit_message", MVal.str c.message), ("author", MVal.str c.author),
       ("repository", MVal.str repo), ("activity_count", MVal.num 1)])

example : (commits_to_sessions 1 [⟨"abc1234", 1000, "msg", "me"⟩] "org/repo").map
    (fun s => (s.start, s.end_, s.project)) = [(1000, 1060, some "repo")] := rfl

/-! ### Lemmas about the stable sort -/

lemma mem_insertByKey {α : Type} (key : α → Int) (x a : α) (l : List α) :
    a ∈ insertByKey key x l ↔ a = x ∨ a ∈ l := by
  induction l with
  | nil => simp [insertByKey]
  | cons y ys ih =>
    simp only [insertByKey]
    split
    · simp [List.mem_cons]
    · simp only [List.mem_cons, ih]
      tauto

lemma pairwise_insertByKey {α : Type} (key : α → Int) (x : α) {l : List α}
    (h : List.Pairwise (fun a b => key a ≤ key b) l) :
    List.Pairwise (fun a b => key a ≤ key b) (insertByKey key x l) := by
  induction l with
  | nil => simp [insertByKey]
  | cons y ys ih =>
    rcases List.pairwise_cons.mp h with ⟨hy, hys⟩
    simp only [insertByKey]
    split
    · rename_i hxy
      refine List.pairwise_cons.mpr ⟨?_, h⟩
      intro b hb
      rcases List.mem_cons.mp hb with rfl | hb
      · exact hxy
      · exact le_trans hxy (hy b hb)
    · rename_i hxy
      refine List.pairwise_cons.mpr ⟨?_, ih hys⟩
      intro b hb
      rcases (mem_insertByKey key x b ys).mp hb with rfl | hb
      · exact le_of_not_le hxy
      · exact hy b hb

lemma sortByKey_pairwise {α : Type} (key : α → Int) (l : List α) :
    List.Pairwise (fun a b => key a ≤ key b) (sortByKey key l) := by
  induction l with
  | nil => simp [sortByKey]
  | cons x xs ih => exact pairwise_insertByKey key x ih

lemma sortByKey_eq_of_chain {α : Type} (key : α → Int) (l : List α)
    (h : List.Chain' (fun a b => key a ≤ key b) l) : sortByKey key l = l := by
  induction l with
  | nil => rfl
  | cons x xs ih =>
    have hxs : List.Chain' (fun a b => key a ≤ key b) xs := h.tail
    simp only [sortByKey, ih hxs]
    cases xs with
    | nil => rfl
    | cons y ys =>
      have hxy : key x ≤ key y := (List.chain'_cons.mp h).1
      simp [insertByKey, hxy]

/-! ### Lemmas about `merge_consecutive_sessions` -/

lemma mergeLoop_shape (t : Int) :
    ∀ (rest : List Session) (current : Session) (ys : List Session),
      mergeLoop t current rest = .ok ys →
      ∃ c tl, ys = c :: tl ∧ c.start = current.start ∧ c.project = current.project := by
  intro rest
  induction rest with
  | nil =>
    intro current ys h
    simp only [mergeLoop, Except.ok.injEq] at h
    exact ⟨current, [], h.symm, rfl, rfl⟩
  | cons s rest ih =>
    intro current ys h
    simp only [mergeLoop] at h
    split at h
    · split at h
      · exact absurd h (by simp)
      · have hres := ih _ _ h
        exact hres
    · rcases hrec : mergeLoop t s rest with e | out <;> rw [hrec] at h
      · exact absurd h (by simp)
      · simp only at h
        simp only [Except.ok.injEq] at h
        exact ⟨current, out, h.symm, rfl, rfl⟩

lemma mergeLoop_sorted (t : Int) :
    ∀ (rest : List Session) (current : Session) (ys : List Session),
      List.Pairwise (fun a b => a.start ≤ b.start) (current :: rest) →
      mergeLoop t current rest = .ok ys →
      List.Chain' (fun a b => a.start ≤ b.start) ys := by
  intro rest
  induction rest with
  | nil =>
    intro current ys hp h
    simp only [mergeLoop, Except.ok.injEq] at h
    subst h
    exact List.chain'_singleton current
  | cons s rest ih =>
    intro current ys hp h
    rcases List.pairwise_cons.mp hp with ⟨hcur, hrestp⟩
    simp only [mergeLoop] at h
    split at h
    · split at h
      · exact absurd h (by simp)
      · refine ih _ ys ?_ h
        refine List.pairwise_cons.mpr ⟨?_, (List.pairwise_cons.mp hrestp).2⟩
        intro b hb
        exact hcur b (List.mem_cons_of_mem s hb)
    · rcases hrec : mergeLoop t s rest with e | out <;> rw [hrec] at h
      · exact absurd h (by simp)
      · simp only [Except.ok.injEq] at h
        subst h
        have hout : List.Chain' (fun a b => a.start ≤ b.start) out := ih s out hrestp hrec
        rcases mergeLoop_shape t rest s out hrec with ⟨c, tl, rfl, hcs, _⟩
        exact List.chain'_cons.mpr ⟨by rw [hcs]; exact hcur s (List.mem_cons_self s rest), hout⟩

lemma mergeLoop_chain_false (t : Int) :
    ∀ (rest : List Session) (current : Session) (ys : List Session),
      mergeLoop t current rest = .ok ys →
      List.Chain' (fun a b => mergeCond t a b = false) ys := by
  intro rest
  induction rest with
  | nil =>
    intro current ys h
    simp only [mergeLoop, Except.ok.injEq] at h
    subst h
    exact List.chain'_singleton current
  | cons s rest ih =>
    intro current ys h
    simp only [mergeLoop] at h
    split at h
    · split at h
      · exact absurd h (by simp)
      · have hres := ih _ _ h
        exact hres
    · rename_i hcond
      rcases hrec : mergeLoop t s rest with e | out <;> rw [hrec] at h
      · exact absurd h (by simp)
      · simp only [Except.ok.injEq] at h
        subst h
        have hout := ih s out hrec
        rcases mergeLoop_shape t rest s out hrec with ⟨c, tl, rfl, hcs, hcp⟩
        refine List.chain'_cons.mpr ⟨?_, hout⟩
        have : mergeCond t current c = mergeCond t current s := by
          simp [mergeCond, hcs, hcp]
        rw [this]
        exact Bool.of_not_eq_true hcond

lemma mergeLoop_of_chain_false (t : Int) :
    ∀ (rest : List Session) (current : Session),
      List.Chain' (fun a b => mergeCond t a b = false) (current :: rest) →
      mergeLoop t current rest = .ok (current :: rest) := by
  intro rest
  induction rest with
  | nil => intro current _; rfl
  | cons s rest ih =>
    intro current hc
    rcases List.chain'_cons.mp hc with ⟨h1, h2⟩
    simp only [mergeLoop, h1, Bool.false_eq_true, if_false, ih s h2]

/-- C8: for every session list that is already the output of
`merge_consecutive_sessions`, running the merge again with the same gap
threshold returns the same list: merging is idempotent.  (The output is
sorted by start and no adjacent pair satisfies the merge condition, so the
second run sorts it to itself and performs no merges.) -/
theorem C8_merge_idempotent (t : Int) (xs ys : List Session)
    (h : merge_consecutive_sessions t xs = .ok ys) :
    merge_consecutive_sessions t ys = .ok ys := by
  unfold merge_consecutive_sessions at h
  split at h
  · simp only [Except.ok.injEq] at h
    subst h
    rfl
  · rename_i c rest hs
    have hp : List.Pairwise (fun a b : Session => a.start ≤ b.start) (c :: rest) := by
      have hall := sortByKey_pairwise (fun s : Session => s.start) xs
      rwa [hs] at hall
    have hsorted := mergeLoop_sorted t rest c ys hp h
    have hfalse := mergeLoop_chain_false t rest c ys h
    rcases mergeLoop_shape t rest c ys h with ⟨c', tl, rfl, _, _⟩
    unfold merge_consecutive_sessions
    rw [sortByKey_eq_of_chain _ _ hsorted]
    exact mergeLoop_of_chain_false t tl c' hfalse

/-- Witness for C8 at a concrete input: merging two sessions five minutes
apart produces one block, and re-merging that block returns it unchanged. -/
theorem C8_merge_idempotent_witness :
    merge_consecutive_sessions 10 [⟨0, 900, "Claude", some "p", [("interactions", MVal.num 2)]⟩]
      = .ok [⟨0, 900, "Claude", some "p", [("interactions", MVal.num 2)]⟩] :=
  C8_merge_idempotent 10
    [⟨0, 300, "Claude", some "p", [("interactions", MVal.num 1)]⟩,
     ⟨600, 900, "Claude", some "p", [("interactions", MVal.num 1)]⟩]
    [⟨0, 900, "Claude", some "p", [("interactions", MVal.num 2)]⟩] rfl

/-! ### Lemmas about the metrics dict -/

/-- `current.metrics.get(key, 0)` when the stored value is numeric or
missing (the only cases in which the addition succeeds). -/
def numOr0 : Option MVal → Int
  | some (.num n) => n
  | _ => 0

lemma dictGet_dictSet_self (d : Metrics) (k : String) (v : MVal) :
    dictGet (dictSet d k v) k = some v := by
  induction d with
  | nil => simp [dictGet, dictSet]
  | cons kv rest ih =>
    obtain ⟨k', v'⟩ := kv
    simp only [dictSet]
    by_cases hk : k' = k
    · simp [dictGet, hk]
    · simp [dictGet, hk, ih]

lemma dictGet_dictSet_ne (d : Metrics) (k k' : String) (v : MVal) (h : k' ≠ k) :
    dictGet (dictSet d k' v) k = dictGet d k := by
  induction d with
  | nil => simp [dictGet, dictSet, h]
  | cons kv rest ih =>
    obtain ⟨k0, v0⟩ := kv
    simp only [dictSet]
    by_cases hk : k0 = k'
    · subst hk
      simp [dictGet, h]
    · simp only [if_neg hk, dictGet, ih]

lemma addMetric_get_ne (cur acc : Metrics) (kv : String × MVal) (k : String)
    (hne : kv.1 ≠ k) (h : addMetric cur kv = .ok acc) :
    dictGet acc k = dictGet cur k := by
  obtain ⟨k', v⟩ := kv
  cases v with
  | str s =>
    simp only [addMetric, Except.ok.injEq] at h
    subst h
    rfl
  | num n =>
    simp only [addMetric] at h
    split at h
    · exact absurd h (by simp)
    · simp only [Except.ok.injEq] at h
      subst h
      exact dictGet_dictSet_ne cur k k' _ hne
    · simp only [Except.ok.injEq] at h
      subst h
      exact dictGet_dictSet_ne cur k k' _ hne

lemma addMetric_get_self (cur acc : Metrics) (k : String) (n : Int)
    (h : addMetric cur (k, .num n) = .ok acc) :
    dictGet acc k = some (.num (numOr0 (dictGet cur k) + n)) := by
  simp only [addMetric] at h
  split at h
  · exact absurd h (by simp)
  · rename_i m0 hm0
    simp only [Except.ok.injEq] at h
    subst h
    rw [dictGet_dictSet_self, hm0]
    rfl
  · rename_i hnone
    simp only [Except.ok.injEq] at h
    subst h
    rw [dictGet_dictSet_self, hnone]
    rfl

lemma mergeMetricsE_get_notmem :
    ∀ (abs cur m : Metrics) (k : String),
      k ∉ abs.map Prod.fst → mergeMetricsE cur abs = .ok m →
      dictGet m k = dictGet cur k := by
  intro abs
  induction abs with
  | nil =>
    intro cur m k _ h
    simp only [mergeMetricsE, Except.ok.injEq] at h
    subst h
    rfl
  | cons kv rest ih =>
    intro cur m k hk h
    simp only [List.map_cons, List.mem_cons] at hk
    push_neg at hk
    obtain ⟨hk1, hk2⟩ := hk
    simp only [mergeMetricsE] at h
    split at h
    · exact absurd h (by simp)
    · rename_i acc hacc
      rw [ih acc m k hk2 h]
      exact addMetric_get_ne cur acc kv k (fun e => hk1 e.symm) hacc

lemma mergeMetricsE_get :
    ∀ (abs cur m : Metrics) (k : String) (n : Int),
      (abs.map Prod.fst).Nodup → mergeMetricsE cur abs = .ok m →
      dictGet abs k = some (.num n) →
      dictGet m k = some (.num (numOr0 (dictGet cur k) + n)) := by
  intro abs
  induction abs with
  | nil => intro cur m k n _ _ hget; simp [dictGet] at hget
  | cons kv rest ih =>
    intro cur m k n hnd h hget
    obtain ⟨k', v⟩ := kv
    simp only [List.map_cons, List.nodup_cons] at hnd
    obtain ⟨hk', hndrest⟩ := hnd
    simp only [mergeMetricsE] at h
    by_cases hk : k' = k
    · subst hk
      simp [dictGet] at hget
      subst hget
      split at h
      · exact absurd h (by simp)
      · rename_i acc hacc
        rw [mergeMetricsE_get_notmem rest acc m k' hk' h]
        exact addMetric_get_self cur acc k' n hacc
    · simp only [dictGet, if_neg hk] at hget
      split at h
      · exact absurd h (by simp)
      · rename_i acc hacc
        rw [ih acc m k n hndrest h hget,
          addMetric_get_ne cur acc (k', v) k hk hacc]

/-- C3 (corrected): when `merge_consecutive_sessions` absorbs the next
session into the accumulator, the accumulator's end becomes `next.end` —
the code assigns `current.end = session.end` and does NOT take
`max(current.end, next.end)` — while every numeric metric value of the
absorbed session is added onto the accumulator's value at that key
(`current.metrics.get(key, 0) + value`). -/
theorem C3_merge_absorb_sets_end_to_next (t : Int) (s1 s2 : Session) (m : Metrics)
    (hstart : s1.start ≤ s2.start)
    (hgap : s2.start - s1.end_ ≤ t * 60)
    (hproj : s2.project = s1.project)
    (hm : mergeMetricsE s1.metrics s2.metrics = .ok m) :
    merge_consecutive_sessions t [s1, s2]
      = .ok [⟨s1.start, s2.end_, s1.service, s1.project, m⟩] ∧
    (∀ k n, (s2.metrics.map Prod.fst).Nodup → dictGet s2.metrics k = some (.num n) →
      dictGet m k = some (.num (numOr0 (dictGet s1.metrics k) + n))) := by
  constructor
  · have hsort : sortByKey (fun s : Session => s.start) [s1, s2] = [s1, s2] := by
      simp [sortByKey, insertByKey, hstart]
    have hcond : mergeCond t s1 s2 = true := by
      simp [mergeCond, hgap, hproj]
    unfold merge_consecutive_sessions
    rw [hsort]
    simp only [mergeLoop, hcond, if_true, hm]
  · intro k n hnd hk
    exact mergeMetricsE_get s2.metrics s1.metrics m k n hnd hm hk

/-- Counterexample to C3 as stated: a session wholly contained in the
current block DOES shrink the block.  The block `[0, 6000]` absorbs the
contained session `[300, 3000]` and its end becomes 3000, not
`max 6000 3000 = 6000`. -/
theorem C3_counterexample :
    merge_consecutive_sessions 10
        [⟨0, 6000, "Claude", none, []⟩, ⟨300, 3000, "Claude", none, []⟩]
      = .ok [⟨0, 3000, "Claude", none, []⟩] ∧
    max (6000 : Int) 3000 = 6000 ∧ (3000 : Int) ≠ 6000 :=
  ⟨rfl, rfl, by decide⟩

/-- Witness for C3 at a concrete input. -/
theorem C3_merge_absorb_sets_end_to_next_witness :
    merge_consecutive_sessions 10
        [⟨0, 300, "Claude", some "p", [("interactions", MVal.num 1)]⟩,
         ⟨600, 900, "Claude", some "p", [("interactions", MVal.num 2)]⟩]
      = .ok [⟨0, 900, "Claude", some "p", [("interactions", MVal.num 3)]⟩] ∧
    (∀ k n, ([(("interactions" : String), MVal.num 2)].map Prod.fst).Nodup →
      dictGet [("interactions", MVal.num 2)] k = some (.num n) →
      dictGet [("interactions", MVal.num 3)] k
        = some (.num (numOr0 (dictGet [("interactions", MVal.num 1)] k) + n))) :=
  C3_merge_absorb_sets_end_to_next 10
    ⟨0, 300, "Claude", some "p", [("interactions", MVal.num 1)]⟩
    ⟨600, 900, "Claude", some "p", [("interactions", MVal.num 2)]⟩
    [("interactions", MVal.num 3)] (by decide) (by decide) rfl rfl

/-- C4 (corrected): the two merge implementations disagree at the boundary.
In `merge_consecutive_sessions` (`src/base_extractor.py`) the comparison is
`time_gap <= threshold_minutes`, so a gap of exactly `merge_gap` minutes is
merged and one minute more is not; in the merge loop of
`find_claude_sessions_enhanced.py` the comparison is strict
(`... < 900` seconds), so a gap of exactly 15 minutes is NOT merged. -/
theorem C4_merge_boundary (t : Int) (s1 s2 : Session) (m : Metrics) (e1 e2 : ESession)
    (hstart : s1.start ≤ s2.start)
    (hproj : s2.project = s1.project)
    (hm : mergeMetricsE s1.metrics s2.metrics = .ok m)
    (he : e1.firstInteraction ≤ e2.firstInteraction) :
    (s2.start - s1.end_ = t * 60 →
      merge_consecutive_sessions t [s1, s2]
        = .ok [⟨s1.start, s2.end_, s1.service, s1.project, m⟩]) ∧
    (s2.start - s1.end_ = t * 60 + 60 →
      merge_consecutive_sessions t [s1, s2] = .ok [s1, s2]) ∧
    (e2.firstInteraction - e1.lastInteraction < 900 →
      (mergeAdjacentSessions [e1, e2]).length = 1) ∧
    (900 ≤ e2.firstInteraction - e1.lastInteraction →
      (mergeAdjacentSessions [e1, e2]).length = 2) := by
  have hsort : sortByKey (fun s : Session => s.start) [s1, s2] = [s1, s2] := by
    simp [sortByKey, insertByKey, hstart]
  have hesort : sortByKey (fun s : ESession => s.firstInteraction) [e1, e2] = [e1, e2] := by
    simp [sortByKey, insertByKey, he]
  refine ⟨?_, ?_, ?_, ?_⟩
  · intro hg
    have hcond : mergeCond t s1 s2 = true := by
      simp [mergeCond, hproj]
      omega
    unfold merge_consecutive_sessions
    rw [hsort]
    simp only [mergeLoop, hcond, if_true, hm]
  · intro hg
    have hgt : ¬ (s2.start - s1.end_ ≤ t * 60) := by omega
    have hcond : mergeCond t s1 s2 = false := by
      simp [mergeCond, hgt]
    unfold merge_consecutive_sessions
    rw [hsort]
    simp only [mergeLoop, hcond, Bool.false_eq_true, if_false]
  · intro hlt
    unfold mergeAdjacentSessions
    rw [hesort]
    simp only [mergeEnhancedLoop, initMerged]
    rw [if_pos hlt]
    rfl
  · intro hge
    have hlt : ¬ (e2.firstInteraction - e1.lastInteraction < 900) := by omega
    unfold mergeAdjacentSessions
    rw [hesort]
    simp only [mergeEnhancedLoop, initMerged]
    rw [if_neg hlt]
    rfl

/-- Counterexample to C4 as stated for the enhanced merge: two sessions
exactly `merge_gap = 15` minutes (900 seconds) apart remain two separate
blocks, although the claim says a gap of exactly `merge_gap` merges. -/
theorem C4_counterexample :
    (mergeAdjacentSessions [⟨0, 0, 1, 5, "5m"⟩, ⟨900, 900, 1, 5, "5m"⟩]).length = 2 ∧
    (900 : Int) = 15 * 60 ∧ (2 : Nat) ≠ 1 :=
  ⟨rfl, rfl, by decide⟩

/-- Witness for C4 at concrete inputs (gap exactly `t*60` seconds for the
base merge; 899 seconds for the enhanced merge). -/
theorem C4_merge_boundary_witness :
    ((600 : Int) - 0 = 10 * 60 →
      merge_consecutive_sessions 10
          [⟨0, 0, "Claude", none, []⟩, ⟨600, 1200, "Claude", none, []⟩]
        = .ok [⟨0, 1200, "Claude", none, []⟩]) ∧
    ((600 : Int) - 0 = 10 * 60 + 60 →
      merge_consecutive_sessions 10
          [⟨0, 0, "Claude", none, []⟩, ⟨600, 1200, "Claude", none, []⟩]
        = .ok [⟨0, 0, "Claude", none, []⟩, ⟨600, 1200, "Claude", none, []⟩]) ∧
    ((899 : Int) - 0 < 900 →
      (mergeAdjacentSessions [⟨0, 0, 1, 5, "5m"⟩, ⟨899, 899, 1, 5, "5m"⟩]).length = 1) ∧
    ((900 : Int) ≤ 899 - 0 →
      (mergeAdjacentSessions [⟨0, 0, 1, 5, "5m"⟩, ⟨899, 899, 1, 5, "5m"⟩]).length = 2) :=
  C4_merge_boundary 10 ⟨0, 0, "Claude", none, []⟩ ⟨600, 1200, "Claude", none, []⟩ []
    ⟨0, 0, 1, 5, "5m"⟩ ⟨899, 899, 1, 5, "5m"⟩ (by decide) rfl rfl (by decide)

/-! ### Lemmas about `argmaxCount` -/

lemma mem_dedupFirst (l : List String) (x : String) : x ∈ dedupFirst l ↔ x ∈ l := by
  induction l with
  | nil => simp [dedupFirst]
  | cons a as ih =>
    constructor
    · intro h
      rcases List.mem_cons.mp h with rfl | h
      · exact List.mem_cons_self _ _
      · exact List.mem_cons_of_mem _ (ih.mp (List.mem_filter.mp h).1)
    · intro h
      rcases List.mem_cons.mp h with rfl | h
      · exact List.mem_cons_self _ _
      · by_cases hxa : x = a
        · subst hxa
          exact List.mem_cons_self _ _
        · refine List.mem_cons_of_mem _ (List.mem_filter.mpr ⟨ih.mpr h, ?_⟩)
          simpa using hxa

lemma argmaxStep_fold (l : List String) (cands : List String) :
    ∀ b : String,
      ∃ r, List.foldl (argmaxStep l) (some b) cands = some r ∧
        (r = b ∨ r ∈ cands) ∧ countOcc l b ≤ countOcc l r ∧
        ∀ x ∈ cands, countOcc l x ≤ countOcc l r := by
  induction cands with
  | nil =>
    intro b
    exact ⟨b, rfl, Or.inl rfl, le_refl _, by simp⟩
  | cons c cs ih =>
    intro b
    simp only [List.foldl_cons]
    by_cases hbc : countOcc l b < countOcc l c
    · have hstep : argmaxStep l (some b) c = some c := by simp [argmaxStep, hbc]
      rw [hstep]
      obtain ⟨r, hr, hmem, hble, hall⟩ := ih c
      refine ⟨r, hr, ?_, le_trans (le_of_lt hbc) hble, ?_⟩
      · rcases hmem with rfl | hm
        · exact Or.inr (List.mem_cons_self _ _)
        · exact Or.inr (List.mem_cons_of_mem _ hm)
      · intro x hx
        rcases List.mem_cons.mp hx with rfl | hx
        · exact hble
        · exact hall x hx
    · have hstep : argmaxStep l (some b) c = some b := by simp [argmaxStep, hbc]
      rw [hstep]
      obtain ⟨r, hr, hmem, hble, hall⟩ := ih b
      refine ⟨r, hr, ?_, hble, ?_⟩
      · rcases hmem with rfl | hm
        · exact Or.inl rfl
        · exact Or.inr (List.mem_cons_of_mem _ hm)
      · intro x hx
        rcases List.mem_cons.mp hx with rfl | hx
        · exact le_trans (le_of_not_lt hbc) hble
        · exact hall x hx

lemma argmaxCount_spec (l : List String) (hne : l ≠ []) :
    ∃ r, argmaxCount l = some r ∧ r ∈ l ∧ ∀ x ∈ l, countOcc l x ≤ countOcc l r := by
  cases l with
  | nil => exact absurd rfl hne
  | cons a as =>
    unfold argmaxCount
    simp only [dedupFirst, List.foldl_cons]
    have h0 : argmaxStep (a :: as) none a = some a := rfl
    rw [h0]
    obtain ⟨r, hr, hmem, hble, hall⟩ :=
      argmaxStep_fold (a :: as) ((dedupFirst as).filter (fun y => decide (¬ y = a))) a
    refine ⟨r, hr, ?_, ?_⟩
    · rcases hmem with rfl | hm
      · exact List.mem_cons_self _ _
      · exact List.mem_cons_of_mem _ ((mem_dedupFirst as r).mp (List.mem_filter.mp hm).1)
    · intro x hx
      rcases List.mem_cons.mp hx with rfl | hx
      · exact hble
      · by_cases hxa : x = a
        · subst hxa
          exact hble
        · refine hall x (List.mem_filter.mpr ⟨(mem_dedupFirst as x).mpr hx, ?_⟩)
          simpa using hxa

/-- C1 (code bug): the claim says a missing or empty commit index yields
`(None, 0)` without raising, but `find_repository_for_session` applied to
the DataFrame built from an empty commit list raises `KeyError` when it
accesses the missing `'timestamp'` column; only a NON-empty index with no
commit in the window yields `(None, 0)`. -/
theorem C1_empty_index_raises :
    find_repository_for_session ⟨1, 1⟩ 0 [] = .error "KeyError: timestamp" ∧
    find_repository_for_session ⟨1, 1⟩ 0 [⟨"A", 100000⟩] = .ok (none, 0) :=
  ⟨rfl, rfl⟩

/-- C2 (corrected): for a non-empty commit index the result is `(None, 0)`
exactly when no commit lies in the inclusive window; otherwise the
attributor returns a repository of maximal commit count in the window
together with the TOTAL number of window commits (`len(relevant_commits)`),
not that repository's own count. -/
theorem C2_attribution (cfg : AnalysisConfig) (t : Int) (commits relevant : List Commit)
    (hne : commits ≠ [])
    (hrel : relevant = commits.filter (inWindow cfg t)) :
    (find_repository_for_session cfg t commits = .ok (none, 0) ↔ relevant = []) ∧
    (relevant ≠ [] →
      ∃ r, find_repository_for_session cfg t commits = .ok (some r, relevant.length) ∧
        r ∈ relevant.map (fun c => c.repo) ∧
        ∀ x ∈ relevant.map (fun c => c.repo),
          countOcc (relevant.map (fun c => c.repo)) x
            ≤ countOcc (relevant.map (fun c => c.repo)) r) := by
  subst hrel
  have hnemp : commits.isEmpty = false := by
    cases commits with
    | nil => exact absurd rfl hne
    | cons a as => rfl
  rcases hfil : commits.filter (inWindow cfg t) with _ | ⟨c, cs⟩
  · have hres : find_repository_for_session cfg t commits = .ok (none, 0) := by
      unfold find_repository_for_session
      simp [hnemp, hfil]
    rw [hres]
    exact ⟨by simp, fun h => absurd rfl h⟩
  · have hlen : 0 < (commits.filter (inWindow cfg t)).length := by
      rw [hfil]; simp
    obtain ⟨r, hr, hrm, hrmax⟩ :=
      argmaxCount_spec ((commits.filter (inWindow cfg t)).map (fun c => c.repo))
        (by rw [hfil]; simp)
    have hres : find_repository_for_session cfg t commits
        = .ok (some r, (commits.filter (inWindow cfg t)).length) := by
      unfold find_repository_for_session
      simp only [hnemp, Bool.false_eq_true, if_false, if_pos hlen, hr]
    rw [hfil] at hres hrm hrmax
    constructor
    · rw [hres]
      simp
    · intro _
      exact ⟨r, hres, hrm, hrmax⟩

/-- Counterexample to C2 as stated: with two commits on `A` and one on `B`
in the window, the attributor returns `("A", 3)` — the total number of
window commits — although `A` itself has only 2 supporting commits. -/
theorem C2_counterexample :
    find_repository_for_session ⟨1, 1⟩ 0 [⟨"A", 0⟩, ⟨"A", 10⟩, ⟨"B", 20⟩]
      = .ok (some "A", 3) ∧
    countOcc ((([⟨"A", 0⟩, ⟨"A", 10⟩, ⟨"B", 20⟩] : List Commit).filter
      (inWindow ⟨1, 1⟩ 0)).map (fun c => c.repo)) "A" = 2 ∧
    (3 : Nat) ≠ 2 :=
  ⟨rfl, rfl, by decide⟩

/-- Witness for C2 at a concrete input. -/
theorem C2_attribution_witness :
    (find_repository_for_session ⟨1, 1⟩ 0 [⟨"X", 300⟩] = .ok (none, 0)
        ↔ ([⟨"X", 300⟩] : List Commit) = []) ∧
    (([⟨"X", 300⟩] : List Commit) ≠ [] →
      ∃ r, find_repository_for_session ⟨1, 1⟩ 0 [⟨"X", 300⟩]
          = .ok (some r, ([⟨"X", 300⟩] : List Commit).length) ∧
        r ∈ ([⟨"X", 300⟩] : List Commit).map (fun c => c.repo) ∧
        ∀ x ∈ ([⟨"X", 300⟩] : List Commit).map (fun c => c.repo),
          countOcc (([⟨"X", 300⟩] : List Commit).map (fun c => c.repo)) x
            ≤ countOcc (([⟨"X", 300⟩] : List Commit).map (fun c => c.repo)) r) :=
  C2_attribution ⟨1, 1⟩ 0 [⟨"X", 300⟩] [⟨"X", 300⟩] (by decide) rfl

/-- C7 (corrected): a line whose JSON fails to parse is skipped and the
rest of the file still contributes, but a line with an unusable timestamp
(a `ValueError` the inner handler does not catch) stops processing of the
remainder of that file — only the entries collected before it survive.  No
exception escapes `_parse_jsonl_file` in either case. -/
theorem C7_parse_jsonl_malformed :
    (∀ pre post : List JsonlLine,
      parse_jsonl_file (pre ++ JsonlLine.invalidJson :: post)
        = parse_jsonl_file (pre ++ post)) ∧
    (∀ pre post : List JsonlLine,
      parse_jsonl_file (pre ++ JsonlLine.badTimestamp :: post) = parse_jsonl_file pre) := by
  constructor
  · intro pre post
    induction pre with
    | nil => rfl
    | cons x xs ih => cases x <;> simp [parse_jsonl_file, ih]
  · intro pre post
    induction pre with
    | nil => rfl
    | cons x xs ih => cases x <;> simp [parse_jsonl_file, ih]

/-- Counterexample to C7 as stated: after a line with an unusable
timestamp, a later well-formed line of the same file no longer contributes
its entry (alone, that same line does). -/
theorem C7_counterexample :
    parse_jsonl_file [JsonlLine.badTimestamp, JsonlLine.valid ⟨0, "p", 1, 2⟩] = [] ∧
    parse_jsonl_file [JsonlLine.valid ⟨0, "p", 1, 2⟩] = [⟨0, "p", 1, 2⟩] :=
  ⟨rfl, rfl⟩

/-- C9: the base extractor's date filter keeps a session exactly when
`start_date ≤ session.start` (when supplied) and `session.start ≤ end_date`
(when supplied); the session's end is never consulted, so a session that
begins before `start_date` but extends into the range is excluded. -/
theorem C9_filter_sessions_start_only (sessions : List Session) (sd ed : Option Int)
    (s : Session) :
    s ∈ filter_sessions sessions sd ed ↔
      s ∈ sessions ∧ (∀ d, sd = some d → d ≤ s.start) ∧ (∀ d, ed = some d → s.start ≤ d) := by
  cases sd <;> cases ed <;>
    (simp [filter_sessions, List.mem_filter, and_assoc]; try tauto)

/-- C10: once `get_all_commits` has populated `commits_cache`, any later
call returns that cached result unchanged — whatever `start_date`,
`end_date` (and even fetch behaviour) the later call is given — and leaves
the cache untouched. -/
theorem C10_get_all_commits_cached (cfg : GitConfig)
    (f1g f2g : String → Option Int → Option Int → List Commit)
    (f1l f2l : String → String → Option Int → Option Int → List Commit)
    (cache : Option (List Commit)) (sd1 ed1 sd2 ed2 : Option Int) :
    (get_all_commits cfg f2g f2l (get_all_commits cfg f1g f1l cache sd1 ed1).2 sd2 ed2).1
      = (get_all_commits cfg f1g f1l cache sd1 ed1).1 ∧
    (get_all_commits cfg f2g f2l (get_all_commits cfg f1g f1l cache sd1 ed1).2 sd2 ed2).2
      = (get_all_commits cfg f1g f1l cache sd1 ed1).2 := by
  cases cache <;> simp [get_all_commits]

/-! ### Lemmas about the gap-splitting loop -/

/-- First element of a block (total, blocks are non-empty). -/
def blkHead (b : List Int) : Int := b.head?.getD 0

/-- Last element of a block (total, blocks are non-empty). -/
def blkLast (b : List Int) : Int := b.getLast?.getD 0

lemma gapSplit_spec (maxGap : Int) :
    ∀ (rest : List Int) (lastTs : Int) (curRev : List Int),
      List.Chain (· ≤ ·) lastTs rest →
      curRev.head? = some lastTs →
      List.Chain' (fun a b => b ≤ a) curRev →
      (∀ b ∈ gapSplit maxGap lastTs curRev rest, b ≠ [] ∧ List.Chain' (· ≤ ·) b) ∧
      List.Chain' (fun b1 b2 => maxGap + blkLast b1 < blkHead b2)
        (gapSplit maxGap lastTs curRev rest) ∧
      ∃ b1 out, gapSplit maxGap lastTs curRev rest = b1 :: out ∧
        blkHead b1 = blkLast curRev := by
  intro rest
  induction rest with
  | nil =>
    intro lastTs curRev hchain hhead hdesc
    obtain ⟨l0, cr, rfl⟩ : ∃ l0 cr, curRev = l0 :: cr := by
      cases curRev with
      | nil => simp at hhead
      | cons l0 cr => exact ⟨l0, cr, rfl⟩
    refine ⟨?_, ?_, ?_⟩
    · intro b hb
      simp only [gapSplit, List.mem_singleton] at hb
      subst hb
      exact ⟨by simp, List.chain'_reverse.mpr hdesc⟩
    · simp [gapSplit]
    · refine ⟨(l0 :: cr).reverse, [], rfl, ?_⟩
      rw [blkHead, blkLast, List.head?_reverse]
  | cons ts rest ih =>
    intro lastTs curRev hchain hhead hdesc
    obtain ⟨hle, hchain2⟩ := List.chain_cons.mp hchain
    obtain ⟨l0, cr, rfl⟩ : ∃ l0 cr, curRev = l0 :: cr := by
      cases curRev with
      | nil => simp at hhead
      | cons l0 cr => exact ⟨l0, cr, rfl⟩
    have hl0 : l0 = lastTs := by simpa using hhead
    subst hl0
    by_cases hgap : maxGap < ts - l0
    · rw [show gapSplit maxGap l0 (l0 :: cr) (ts :: rest)
          = (l0 :: cr).reverse :: gapSplit maxGap ts [ts] rest from by
        simp [gapSplit, hgap]]
      obtain ⟨ihmem, ihchain, b1, out, iheq, ihhead⟩ :=
        ih ts [ts] hchain2 rfl (List.chain'_singleton ts)
      refine ⟨?_, ?_, ?_⟩
      · intro b hb
        rcases List.mem_cons.mp hb with rfl | hb
        · exact ⟨by simp, List.chain'_reverse.mpr hdesc⟩
        · exact ihmem b hb
      · rw [iheq]
        refine List.chain'_cons.mpr ⟨?_, ?_⟩
        · have h1 : blkLast ((l0 :: cr).reverse) = l0 := by
            rw [blkLast, List.getLast?_reverse]
            rfl
          have h2 : blkHead b1 = ts := by
            rw [ihhead]
            rfl
          rw [h1, h2]
          omega
        · rw [← iheq]
          exact ihchain
      · refine ⟨(l0 :: cr).reverse, _, rfl, ?_⟩
        rw [blkHead, blkLast, List.head?_reverse]
    · rw [show gapSplit maxGap l0 (l0 :: cr) (ts :: rest)
          = gapSplit maxGap ts (ts :: l0 :: cr) rest from by
        simp [gapSplit, hgap]]
      have hdesc2 : List.Chain' (fun a b => b ≤ a) (ts :: l0 :: cr) :=
        List.chain'_cons.mpr ⟨hle, hdesc⟩
      obtain ⟨ihmem, ihchain, b1, out, iheq, ihhead⟩ :=
        ih ts (ts :: l0 :: cr) hchain2 rfl hdesc2
      refine ⟨ihmem, ihchain, b1, out, iheq, ?_⟩
      rw [ihhead, blkLast, blkLast, List.getLast?_cons_cons]

lemma workBlocks_spec (maxGap : Int) (ints : List Int) :
    (∀ b ∈ workBlocks maxGap ints, b ≠ [] ∧ List.Chain' (· ≤ ·) b) ∧
    List.Chain' (fun b1 b2 => maxGap + blkLast b1 < blkHead b2) (workBlocks maxGap ints) := by
  unfold workBlocks
  rcases hs : sortByKey (fun x => x) ints with _ | ⟨t, rest⟩
  · exact ⟨by simp, by simp⟩
  · have hp : List.Pairwise (fun a b : Int => a ≤ b) (t :: rest) := by
      have hall := sortByKey_pairwise (fun x : Int => x) ints
      rwa [hs] at hall
    have hchain : List.Chain (· ≤ ·) t rest := hp.chain'
    obtain ⟨hmem, hchainB, _⟩ :=
      gapSplit_spec maxGap rest t [t] hchain rfl (List.chain'_singleton t)
    exact ⟨hmem, hchainB⟩

lemma foldl_min_of_le (xs : List Int) :
    ∀ x, (∀ y ∈ xs, x ≤ y) → xs.foldl min x = x := by
  induction xs with
  | nil => intro x _; rfl
  | cons y ys ih =>
    intro x h
    simp only [List.foldl_cons]
    rw [min_eq_left (h y (List.mem_cons_self _ _))]
    exact ih x (fun z hz => h z (List.mem_cons_of_mem _ hz))

lemma foldl_max_getLast (xs : List Int) :
    ∀ x, List.Chain' (· ≤ ·) (x :: xs) →
      xs.foldl max x = (x :: xs).getLast?.getD 0 := by
  induction xs with
  | nil => intro x _; rfl
  | cons y ys ih =>
    intro x h
    obtain ⟨hxy, h2⟩ := List.chain'_cons.mp h
    simp only [List.foldl_cons]
    rw [max_eq_right hxy, ih y h2, List.getLast?_cons_cons]

lemma listMin_eq_head (b : List Int) (hb : b ≠ []) (hs : List.Chain' (· ≤ ·) b) :
    listMin b = blkHead b := by
  cases b with
  | nil => exact absurd rfl hb
  | cons x xs =>
    have hall := (List.pairwise_cons.mp (List.chain'_iff_pairwise.mp hs)).1
    show xs.foldl min x = blkHead (x :: xs)
    rw [foldl_min_of_le xs x hall]
    rfl

lemma listMax_eq_last (b : List Int) (hb : b ≠ []) (hs : List.Chain' (· ≤ ·) b) :
    listMax b = blkLast b := by
  cases b with
  | nil => exact absurd rfl hb
  | cons x xs => exact foldl_max_getLast xs x hs

lemma blkHead_le_blkLast (b : List Int) (hb : b ≠ []) (hs : List.Chain' (· ≤ ·) b) :
    blkHead b ≤ blkLast b := by
  cases b with
  | nil => exact absurd rfl hb
  | cons x xs =>
    clear hb
    induction xs generalizing x with
    | nil => exact le_refl x
    | cons y ys ih =>
      obtain ⟨hxy, h2⟩ := List.chain'_cons.mp hs
      have h3 : blkLast (x :: y :: ys) = blkLast (y :: ys) := by
        rw [blkLast, blkLast, List.getLast?_cons_cons]
      rw [show blkHead (x :: y :: ys) = x from rfl, h3]
      exact le_trans hxy (le_trans (le_of_eq rfl) (ih y h2))

lemma chain'_map_strong {α β : Type} (f : α → β) (R : α → α → Prop) (S : β → β → Prop)
    (P : α → Prop)
    (himp : ∀ a b, P a → P b → R a b → S (f a) (f b)) :
    ∀ l : List α, (∀ a ∈ l, P a) → List.Chain' R l → List.Chain' S (l.map f) := by
  intro l
  induction l with
  | nil => intro _ _; simp
  | cons x xs ih =>
    intro hP hc
    cases xs with
    | nil => simp
    | cons y ys =>
      obtain ⟨hxy, h2⟩ := List.chain'_cons.mp hc
      simp only [List.map_cons]
      refine List.chain'_cons.mpr ⟨?_, ?_⟩
      · exact himp x y (hP x (List.mem_cons_self _ _))
          (hP y (List.mem_cons_of_mem _ (List.mem_cons_self _ _))) hxy
      · have hmap := ih (fun a ha => hP a (List.mem_cons_of_mem _ ha)) h2
        simpa using hmap

/-! ### Lemmas about `_group_into_sessions` -/

lemma cursorMergeLoop_shape :
    ∀ (rest : List Session) (last : Session),
      ∃ c tl, cursorMergeLoop last rest = c :: tl ∧ c.start = last.start := by
  intro rest
  induction rest with
  | nil => intro last; exact ⟨last, [], rfl, rfl⟩
  | cons c rest ih =>
    intro last
    simp only [cursorMergeLoop]
    split
    · exact ih _
    · exact ⟨last, _, rfl, rfl⟩

lemma cursorMergeLoop_sorted :
    ∀ (rest : List Session) (last : Session),
      List.Pairwise (fun a b : Session => a.start ≤ b.start) (last :: rest) →
      List.Chain' (fun a b : Session => a.start ≤ b.start) (cursorMergeLoop last rest) := by
  intro rest
  induction rest with
  | nil => intro last _; exact List.chain'_singleton last
  | cons c rest ih =>
    intro last hp
    obtain ⟨hlast, hrest⟩ := List.pairwise_cons.mp hp
    simp only [cursorMergeLoop]
    split
    · refine ih _ ?_
      refine List.pairwise_cons.mpr ⟨?_, (List.pairwise_cons.mp hrest).2⟩
      intro b hb
      exact hlast b (List.mem_cons_of_mem _ hb)
    · obtain ⟨c2, tl, heq, hc2s⟩ := cursorMergeLoop_shape rest c
      rw [heq]
      refine List.chain'_cons.mpr ⟨?_, ?_⟩
      · rw [hc2s]
        exact hlast c (List.mem_cons_self _ _)
      · rw [← heq]
        exact ih c hrest

/-- C5 (corrected): the session builders emit lists sorted by start, and
the gap-split blocks of `calculate_session_duration` are in addition
mutually non-overlapping (each block ends strictly before the next starts);
but `_group_into_sessions` merges only OVERLAPPING SAME-PROJECT sessions,
so overlapping sessions of different projects can remain in its output. -/
theorem C5_builder_output_ordering (acts : List (Int × String)) (maxGap : Int)
    (ints : List Int) (hmg : 0 ≤ maxGap) :
    List.Chain' (fun a b : Session => a.start ≤ b.start) (groupIntoSessions acts) ∧
    List.Chain' (fun d1 d2 : BlockDetail => d1.start ≤ d2.start ∧ d1.end_ < d2.start)
      (calculate_session_duration_blocks maxGap ints) := by
  constructor
  · cases acts with
    | nil => simp [groupIntoSessions]
    | cons a as =>
      show List.Chain' _ (groupIntoSessions (a :: as))
      unfold groupIntoSessions
      have hp := sortByKey_pairwise (fun s : Session => s.start)
        ((a :: as).map (fun a =>
          Session.mk (a.1 - 3600) a.1 "Cursor" (some a.2) [("activity_count", MVal.num 1)]))
      dsimp only
      split
      · split
        · simp
        · rename_i c rest heq
          rw [heq] at hp
          exact cursorMergeLoop_sorted rest c hp
      · exact hp.chain'
  · obtain ⟨hmem, hchainB⟩ := workBlocks_spec maxGap ints
    unfold calculate_session_duration_blocks
    refine chain'_map_strong blockDetail _ _
      (fun b => b ≠ [] ∧ List.Chain' (· ≤ ·) b) ?_ (workBlocks maxGap ints) hmem hchainB
    intro b1 b2 hb1 hb2 hR
    obtain ⟨hb1ne, hb1s⟩ := hb1
    obtain ⟨hb2ne, hb2s⟩ := hb2
    have e1 : (blockDetail b1).start = listMin b1 := rfl
    have e2 : (blockDetail b1).end_ = listMax b1 := rfl
    have e3 : (blockDetail b2).start = listMin b2 := rfl
    have h1 := listMin_eq_head b1 hb1ne hb1s
    have h2 := listMax_eq_last b1 hb1ne hb1s
    have h3 := listMin_eq_head b2 hb2ne hb2s
    have h4 := blkHead_le_blkLast b1 hb1ne hb1s
    constructor
    · rw [e1, e3, h1, h3]
      omega
    · rw [e2, e3, h2, h3]
      omega

/-- Counterexample to C5 as stated: two cursor activities 40 minutes apart
on different projects produce the overlapping sessions `[-3600, 0]` (A) and
`[-1200, 2400]` (B): the second starts before the first ends, and they are
not merged because their projects differ. -/
theorem C5_counterexample :
    groupIntoSessions [(0, "A"), (2400, "B")] =
      [⟨-3600, 0, "Cursor", some "A", [("activity_count", MVal.num 1)]⟩,
       ⟨-1200, 2400, "Cursor", some "B", [("activity_count", MVal.num 1)]⟩] ∧
    ¬ ((0 : Int) ≤ -1200) :=
  ⟨rfl, by decide⟩

/-- Witness for C5 at concrete inputs. -/
theorem C5_builder_output_ordering_witness :
    List.Chain' (fun a b : Session => a.start ≤ b.start)
      (groupIntoSessions [(0, "A"), (2400, "B")]) ∧
    List.Chain' (fun d1 d2 : BlockDetail => d1.start ≤ d2.start ∧ d1.end_ < d2.start)
      (calculate_session_duration_blocks 900 [0, 60, 2000]) :=
  C5_builder_output_ordering [(0, "A"), (2400, "B")] 900 [0, 60, 2000] (by decide)

/-- C6 (corrected): in `calculate_session_duration` the synthetic minimum
goes into the block's reported `duration_minutes` — at least 3 minutes for a
multi-event block (span plus 3-minute buffer) and exactly 5 minutes for a
single-event block — while the block's `end` stays at its last timestamp,
so for a single event `end = start`; only the git extractor's point
sessions satisfy `end − start = commit_duration_minutes` literally. -/
theorem C6_block_minimum_duration (maxGap : Int) (ints : List Int) (d : BlockDetail)
    (dur : Int) (commits : List GCommit) (repo : String) (s : Session)
    (hd : d ∈ calculate_session_duration_blocks maxGap ints)
    (hs : s ∈ commits_to_sessions dur commits repo) :
    (3 ≤ d.durationMinutes ∧
      (d.interactionCount = 1 → d.durationMinutes = 5 ∧ d.end_ = d.start)) ∧
    s.end_ - s.start = dur * 60 := by
  constructor
  · obtain ⟨hmem, _⟩ := workBlocks_spec maxGap ints
    unfold calculate_session_duration_blocks at hd
    obtain ⟨b, hb, rfl⟩ := List.mem_map.mp hd
    obtain ⟨hbne, hbs⟩ := hmem b hb
    by_cases hb1 : b.length = 1
    · obtain ⟨x, rfl⟩ : ∃ x, b = [x] := by
        cases b with
        | nil => simp at hb1
        | cons x xs =>
          cases xs with
          | nil => exact ⟨x, rfl⟩
          | cons y ys => simp at hb1
      have hdm : (blockDetail [x]).durationMinutes = 5 := rfl
      exact ⟨by rw [hdm]; decide, fun _ => ⟨hdm, rfl⟩⟩
    · have hdm : (blockDetail b).durationMinutes
          = ((listMax b - listMin b) + 180) / 60 := by
        simp [blockDetail, hb1]
      have hminmax : listMin b ≤ listMax b := by
        rw [listMin_eq_head b hbne hbs, listMax_eq_last b hbne hbs]
        exact blkHead_le_blkLast b hbne hbs
      constructor
      · rw [hdm]
        omega
      · intro hc
        have hlen : b.length = 1 := hc
        exact absurd hlen hb1
  · obtain ⟨c, hc, rfl⟩ := List.mem_map.mp hs
    show (c.timestamp + dur * 60) - c.timestamp = dur * 60
    ring

/-- Counterexample to C6 as stated: a gap group of exactly one event emits
a block whose end EQUALS its start (the 5 synthetic minutes appear only in
`duration_minutes`), so `end − start ≥ minimum` fails for any positive
minimum. -/
theorem C6_counterexample :
    calculate_session_duration_blocks 900 [0] = [⟨0, 0, 5, 1⟩] ∧
    (⟨0, 0, 5, 1⟩ : BlockDetail).end_ - (⟨0, 0, 5, 1⟩ : BlockDetail).start = 0 ∧
    ¬ ((5 : Int) ≤ 0) :=
  ⟨rfl, rfl, by decide⟩

/-- Witness for C6 at concrete inputs: the singleton block of
`calculate_session_duration_blocks 900 [0, 60, 2000]` and one git commit
session. -/
theorem C6_block_minimum_duration_witness :
    (3 ≤ (⟨2000, 2000, 5, 1⟩ : BlockDetail).durationMinutes ∧
      ((⟨2000, 2000, 5, 1⟩ : BlockDetail).interactionCount = 1 →
        (⟨2000, 2000, 5, 1⟩ : BlockDetail).durationMinutes = 5 ∧
        (⟨2000, 2000, 5, 1⟩ : BlockDetail).end_ = (⟨2000, 2000, 5, 1⟩ : BlockDetail).start)) ∧
    (⟨1000, 1060, "Git", some "repo",
      [("interactions", MVal.num 1), ("commit_sha", MVal.str "abc1234"),
       ("commit_message", MVal.str "msg"), ("author", MVal.str "me"),
       ("repository", MVal.str "org/repo"), ("activity_count", MVal.num 1)]⟩ : Session).end_
      - (⟨1000, 1060, "Git", some "repo",
      [("interactions", MVal.num 1), ("commit_sha", MVal.str "abc1234"),
       ("commit_message", MVal.str "msg"), ("author", MVal.str "me"),
       ("repository", MVal.str "org/repo"), ("activity_count", MVal.num 1)]⟩ : Session).start
      = 1 * 60 :=
  C6_block_minimum_duration 900 [0, 60, 2000] ⟨2000, 2000, 5, 1⟩ 1
    [⟨"abc1234", 1000, "msg", "me"⟩] "org/repo"
    ⟨1000, 1060, "Git", some "repo",
      [("interactions", MVal.num 1), ("commit_sha", MVal.str "abc1234"),
       ("commit_message", MVal.str "msg"), ("author", MVal.str "me"),
       ("repository", MVal.str "org/repo"), ("activity_count", MVal.num 1)]⟩
    (by decide) (by decide)
